import Mathlib

/-!
Verification of the `LocationCache` component of the fbtclassification
repository (`src/location_extraction/location_cache.py`).

The Python class is shallowly embedded as pure Lean functions over an
explicit state record.  Conventions used throughout:

* Python `dict` objects (insertion-ordered, update-in-place) are modelled
  as association lists `List (String × _)` with `alGet`/`alSet`/`alKeys`.
* Python floats that are merely carried through (latitudes, confidences,
  similarity scores) are modelled as `Rat`; no claim depends on IEEE
  rounding, and the score arithmetic (`rapidfuzz`) is exact small-integer
  division.
* Timestamps produced by `_now_iso()` are modelled as an abstract `Nat`
  value threaded into each mutating call (`now`).
* The file system is modelled by `FileState`: a JSON file is missing,
  unreadable/corrupt, or holds a parsed document.  `json.dump`/`json.load`
  round-trip the documents unchanged, so serialisation is the identity on
  in-memory documents.
* `rapidfuzz.fuzz.token_sort_ratio` is the normalized indel similarity of
  the whitespace-split, lexicographically sorted, space-joined token
  strings: `100 * 2 * lcs(a, b) / (|a| + |b|)`.  `process.extract` scores
  every choice, sorts by score descending (stable) and keeps `limit` items.
* Python `str.lower` is modelled on its ASCII fragment (the only fragment
  exercised by the cache keys in this repository).
-/

/-- Whitespace class of Python's `str.strip`, `str.split` and the regex
`\s`: space, tab, newline, carriage return, vertical tab, form feed. -/
def pyIsSpace (c : Char) : Bool :=
  c == ' ' || c == '\t' || c == '\n' || c == '\r' || c == '\x0b' || c == '\x0c'

/-- The characters replaced by a space in `LocationCache._normalize`,
i.e. the regex class `['"\-\.\,\*]`: apostrophe, double quote, hyphen,
period, comma, asterisk. -/
def isPunctChar (c : Char) : Bool :=
  c == Char.ofNat 39 || c == Char.ofNat 34 || c == '-' || c == '.' ||
  c == ',' || c == '*'

/-- `str.lower`, restricted to its ASCII case mapping. -/
def pyLower (c : Char) : Char :=
  if 65 ≤ c.toNat ∧ c.toNat ≤ 90 then Char.ofNat (c.toNat + 32) else c

/-- `str.strip()`: drop leading and trailing whitespace. -/
def pyStrip (l : List Char) : List Char :=
  ((l.dropWhile pyIsSpace).reverse.dropWhile pyIsSpace).reverse

/-- `re.sub(r"['\"\-\.\,\*]", " ", text)`: map punctuation to spaces. -/
def subPunct (l : List Char) : List Char :=
  l.map (fun c => if isPunctChar c then ' ' else c)

/-- `re.sub(r"\s+", " ", text)`: replace every maximal whitespace run by a
single space.  The boolean tracks whether the previous character was
whitespace (i.e. whether we are inside a run). -/
def collapseWSAux : Bool → List Char → List Char
  | _, [] => []
  | prevSpace, c :: rest =>
    if pyIsSpace c then
      if prevSpace then collapseWSAux true rest
      else ' ' :: collapseWSAux true rest
    else c :: collapseWSAux false rest

def collapseWS (l : List Char) : List Char := collapseWSAux false l

/-- `LocationCache._normalize` on character lists:
`text.lower().strip()`, then punctuation to spaces, then whitespace runs
collapsed, then a final strip. -/
def normalizeL (l : List Char) : List Char :=
  pyStrip (collapseWS (subPunct (pyStrip (l.map pyLower))))

/-- `LocationCache._normalize` on strings. -/
def LocationCache.normalize (s : String) : String := ⟨normalizeL s.data⟩

/-! ### Association lists: Python `dict` (insertion-ordered) -/

/-- `d[k]` / `d.get(k)`. -/
def alGet {α : Type} : List (String × α) → String → Option α
  | [], _ => none
  | (k, v) :: rest, key => if k = key then some v else alGet rest key

/-- `d[k] = v`: update in place if the key exists, else append. -/
def alSet {α : Type} : List (String × α) → String → α → List (String × α)
  | [], key, v => [(key, v)]
  | (k, w) :: rest, key, v =>
    if k = key then (k, v) :: rest else (k, w) :: alSet rest key v

/-- `list(d.keys())`. -/
def alKeys {α : Type} (m : List (String × α)) : List String := m.map Prod.fst

/-! ### Data model -/

/-- One value of `cache["entries"]`.  Fields that Python may leave absent
from the dict (`store_unresolvable` writes only four of them) are
`Option`s; `hit_count`, `first_seen`, `last_seen` and `resolved` are
written by every constructor of an entry. -/
structure CacheEntry where
  resolved : Bool
  lat : Option Rat
  lon : Option Rat
  state : Option String
  city : Option String
  type_ : Option String
  display_name : Option String
  source : Option String
  confidence : Option Rat
  hit_count : Nat
  first_seen : Nat
  last_seen : Nat
deriving DecidableEq, Repr

/-- One value of `overrides["overrides"]`: a human-authored dict with
coordinate/descriptive fields and an optional `reason`. -/
structure OverrideEntry where
  lat : Option Rat
  lon : Option Rat
  state : Option String
  city : Option String
  country : Option String
  type_ : Option String
  display_name : Option String
  reason : Option String
deriving DecidableEq, Repr

/-- The `data` dict passed to `LocationCache.store` (read with
`data.get(...)`, so every field may be absent). -/
structure StoreData where
  lat : Option Rat
  lon : Option Rat
  state : Option String
  city : Option String
  type_ : Option String
  display_name : Option String
  confidence : Option Rat
deriving DecidableEq, Repr

/-- `data/location_cache.json` in memory: `_meta` counters plus the
entries dict. -/
structure CacheDoc where
  total_entries : Nat
  total_lookups : Nat
  entries : List (String × CacheEntry)
deriving DecidableEq, Repr

/-- `data/location_overrides.json` in memory. -/
structure OverridesDoc where
  overrides : List (String × OverrideEntry)
deriving DecidableEq, Repr

/-- The `LocationCache` object: configuration plus both documents.  The
`_cache_keys` / `_override_keys` lists rebuilt by `_rebuild_keys` after
every mutation are always `alKeys` of the current dicts, so they are kept
derived rather than stored. -/
structure LocationCache where
  fuzzy_threshold : Nat
  cache : CacheDoc
  overrides : OverridesDoc
deriving DecidableEq, Repr

/-- What `lookup` hands back in its first component: a copy of either an
override dict or a cache entry dict. -/
inductive LocData where
  | ovr (e : OverrideEntry)
  | ent (e : CacheEntry)
deriving DecidableEq, Repr

/-- State of one on-disk JSON file: absent, unreadable or syntactically
invalid, or a parsed document. -/
inductive FileState (α : Type) where
  | missing
  | corrupt
  | valid (d : α)
deriving DecidableEq, Repr

/-- The empty default the constructor falls back to for
`location_cache.json`. -/
def emptyCacheDoc : CacheDoc :=
  { total_entries := 0, total_lookups := 0, entries := [] }

/-- The empty default the constructor falls back to for
`location_overrides.json`. -/
def emptyOverridesDoc : OverridesDoc := { overrides := [] }

/-- `LocationCache._load_cache`: parse the file if it exists and parses,
otherwise (missing, unreadable or invalid JSON) the empty default. -/
def LocationCache.load_cache : FileState CacheDoc → CacheDoc
  | .valid d => d
  | _ => emptyCacheDoc

/-- `LocationCache._load_overrides`. -/
def LocationCache.load_overrides : FileState OverridesDoc → OverridesDoc
  | .valid d => d
  | _ => emptyOverridesDoc

/-- `LocationCache.__init__(cache_dir, fuzzy_threshold)`: the directory
contents are abstracted to the two file states. -/
def LocationCache.init (fc : FileState CacheDoc) (fo : FileState OverridesDoc)
    (threshold : Nat) : LocationCache :=
  { fuzzy_threshold := threshold
    cache := LocationCache.load_cache fc
    overrides := LocationCache.load_overrides fo }

/-- `LocationCache._touch_hit`: bump `hit_count`, refresh `last_seen`. -/
def touchHit (e : CacheEntry) (now : Nat) : CacheEntry :=
  { e with hit_count := e.hit_count + 1, last_seen := now }


/-! ### `rapidfuzz` fuzzy matching -/

/-- Python `str.split()`: maximal runs of non-whitespace characters.  The
accumulator holds the current (reversed) run. -/
def splitWSAux : List Char → List Char → List (List Char)
  | cur, [] => if cur.isEmpty then [] else [cur.reverse]
  | cur, c :: rest =>
    if pyIsSpace c then
      if cur.isEmpty then splitWSAux [] rest
      else cur.reverse :: splitWSAux [] rest
    else splitWSAux (c :: cur) rest

def splitWS (l : List Char) : List (List Char) := splitWSAux [] l

/-- Lexicographic comparison of character lists by code point (Python
string `<=`), used by `sorted()`. -/
def charListLe : List Char → List Char → Bool
  | [], _ => true
  | _ :: _, [] => false
  | a :: as, b :: bs =>
    if a.val < b.val then true
    else if b.val < a.val then false
    else charListLe as bs

/-- Stable insertion: place `a` before the first element it compares
`le`-true against.  With `le a b := key b ≤ key a` this yields a stable
descending sort. -/
def insertSortedBy {α : Type} (le : α → α → Bool) (a : α) : List α → List α
  | [] => [a]
  | b :: bs => if le a b then a :: b :: bs else b :: insertSortedBy le a bs

def insSortBy {α : Type} (le : α → α → Bool) : List α → List α
  | [] => []
  | a :: as => insertSortedBy le a (insSortBy le as)

/-- The token-sort preprocessing of `fuzz.token_sort_ratio`: split on
whitespace, sort the tokens, join with single spaces. -/
def tokenSortKey (l : List Char) : List Char :=
  List.intercalate [' '] (insSortBy charListLe (splitWS l))

/-- Length of a longest common subsequence, computed row by row (so that
concrete instances evaluate in polynomial time).  `prev` is the DP row for
the previous character of the first string; `cur` is the value just
emitted on the current row. -/
def lcsRowAux (a : Char) : List Char → List Nat → Nat → List Nat
  | b :: bs, p0 :: ps, cur =>
    let v := if a == b then p0 + 1 else max (ps.headD 0) cur
    v :: lcsRowAux a bs ps v
  | _, _, _ => []

def lcsLen (xs ys : List Char) : Nat :=
  (xs.foldl (fun prev a => 0 :: lcsRowAux a ys prev 0)
    (List.replicate (ys.length + 1) 0)).getLastD 0

/-- `fuzz.ratio`: the normalized indel similarity
`100 * (1 - dist/(|a|+|b|)) = 100 * 2 * lcs / (|a|+|b|)`, with two empty
strings scoring 100. -/
def indelScore (xs ys : List Char) : Rat :=
  if xs.length + ys.length = 0 then 100
  else ((200 * lcsLen xs ys : Nat) : Rat) / ((xs.length + ys.length : Nat) : Rat)

/-- `fuzz.token_sort_ratio`. -/
def tokenSortScore (a b : List Char) : Rat :=
  indelScore (tokenSortKey a) (tokenSortKey b)

/-- One scored choice returned by `process.extract`. -/
structure Scored where
  key : String
  score : Rat
deriving DecidableEq, Repr

/-- `process.extract(query, choices, scorer=fuzz.token_sort_ratio,
limit=limit)`: score every choice, sort by score descending (stable) and
keep the best `limit`. -/
def processExtract (query : String) (choices : List String) (limit : Nat) :
    List Scored :=
  (insSortBy (fun a b => decide (b.score ≤ a.score))
    (choices.map (fun c => ⟨c, tokenSortScore query.data c.data⟩))).take limit

/-! ### Fuzzy search over overrides and cache -/

/-- The loop body of `_fuzzy_search_overrides`: walk the ranked results
and return the first (hence best) one at or above the threshold.  The
`none` arm of the dict access is unreachable because every result key is a
key of `ov`. -/
def firstAboveThreshold (threshold : Nat) (ov : List (String × OverrideEntry)) :
    List Scored → Option OverrideEntry × Rat
  | [] => (none, 0)
  | r :: rs =>
    if (threshold : Rat) ≤ r.score then
      match alGet ov r.key with
      | some e => (some e, r.score)
      | none => (none, 0)
    else firstAboveThreshold threshold ov rs

/-- `LocationCache._fuzzy_search_overrides`, as a function of the fields
it reads. -/
def fuzzyOvCore (threshold : Nat) (ov : List (String × OverrideEntry))
    (key : String) : Option OverrideEntry × Rat :=
  let ks := alKeys ov
  if ks.isEmpty then (none, 0)
  else firstAboveThreshold threshold ov (processExtract key ks 5)

def LocationCache.fuzzy_search_overrides (self : LocationCache) (key : String) :
    Option OverrideEntry × Rat :=
  fuzzyOvCore self.fuzzy_threshold self.overrides.overrides key

/-- A filtered fuzzy-cache candidate: `(match_key, score, entry)`. -/
structure Candidate where
  key : String
  score : Rat
  entry : CacheEntry
deriving DecidableEq, Repr

/-- Descending comparison on `(hit_count, score)` used by
`candidates.sort(key=lambda c: (c[2].get("hit_count", 0), c[1]),
reverse=True)` (stable, like Python's sort). -/
def candLe (a b : Candidate) : Bool :=
  decide (b.entry.hit_count < a.entry.hit_count) ||
    (b.entry.hit_count == a.entry.hit_count && decide (b.score ≤ a.score))

/-- The filtering loop of `_fuzzy_search_cache`: keep the extracted
results at or above the threshold whose entry is resolved, as
`(match_key, score, entry)` triples.  The `none` arm of the dict access is
unreachable because every result key is a key of `entries`. -/
def cacheCandidates (threshold : Nat) (entries : List (String × CacheEntry))
    (key : String) : List Candidate :=
  (processExtract key (alKeys entries) 10).filterMap (fun r =>
    if (threshold : Rat) ≤ r.score then
      match alGet entries r.key with
      | some e => if e.resolved then some ⟨r.key, r.score, e⟩ else none
      | none => none
    else none)

/-- `LocationCache._fuzzy_search_cache`, as a function of the fields it
reads; returns the result pair and the (possibly touched) entries dict.
The survivors of the filter are sorted by `(hit_count, score)` descending
and the winner is hit-bumped in place. -/
def fuzzyCacheCore (threshold : Nat) (entries : List (String × CacheEntry))
    (key : String) (now : Nat) :
    (Option CacheEntry × Rat) × List (String × CacheEntry) :=
  if (alKeys entries).isEmpty then ((none, 0), entries)
  else
    match insSortBy candLe (cacheCandidates threshold entries key) with
    | [] => ((none, 0), entries)
    | best :: _ =>
      ((some (touchHit best.entry now), best.score),
        alSet entries best.key (touchHit best.entry now))

def LocationCache.fuzzy_search_cache (self : LocationCache) (key : String)
    (now : Nat) : (Option CacheEntry × Rat) × LocationCache :=
  let r := fuzzyCacheCore self.fuzzy_threshold self.cache.entries key now
  (r.1, { self with cache := { self.cache with entries := r.2 } })

/-! ### Public API -/

/-- `LocationCache.lookup(raw_text)`.  Returns the `(data, confidence)`
pair and the mutated object (`total_lookups` always bumped; an exact or
fuzzy cache hit also touches the winning entry). -/
def LocationCache.lookup (self : LocationCache) (raw_text : String)
    (now : Nat) : (Option LocData × Rat) × LocationCache :=
  let self1 : LocationCache :=
    { self with cache :=
        { self.cache with total_lookups := self.cache.total_lookups + 1 } }
  let key := LocationCache.normalize raw_text
  if key = "" then ((none, 0), self1)
  else
    match alGet self1.overrides.overrides key with
    | some ov => ((some (.ovr ov), 100), self1)
    | none =>
      match self1.fuzzy_search_overrides key with
      | (some ov, score) => ((some (.ovr ov), score), self1)
      | (none, _) =>
        match alGet self1.cache.entries key with
        | some e =>
          let touched := touchHit e now
          let self2 : LocationCache :=
            { self1 with cache :=
                { self1.cache with
                    entries := alSet self1.cache.entries key touched } }
          if touched.resolved then ((some (.ent touched), 100), self2)
          else ((none, -1), self2)
        | none =>
          match self1.fuzzy_search_cache key now with
          | ((some e, score), self2) => ((some (.ent e), score), self2)
          | ((none, _), self2) => ((none, 0), self2)

/-- `LocationCache.store(raw_text, data, source)`. -/
def LocationCache.store (self : LocationCache) (raw_text : String)
    (data : StoreData) (source : String) (now : Nat) : LocationCache :=
  let key := LocationCache.normalize raw_text
  if key = "" then self
  else
    let existing := alGet self.cache.entries key
    let entry : CacheEntry :=
      { resolved := true
        lat := data.lat
        lon := data.lon
        state := some (data.state.getD "")
        city := some (data.city.getD "")
        type_ := some (data.type_.getD "")
        display_name := some (data.display_name.getD "")
        source := some source
        confidence := some (data.confidence.getD ((9 : Rat) / 10))
        hit_count := match existing with | some e => e.hit_count + 1 | none => 1
        first_seen := match existing with | some e => e.first_seen | none => now
        last_seen := now }
    let entries := alSet self.cache.entries key entry
    { self with cache :=
        { self.cache with entries := entries, total_entries := entries.length } }

/-- The entry `store_unresolvable` writes for a previously unseen key:
`{resolved: False, hit_count: 1, first_seen: now, last_seen: now}`, no
coordinate or descriptive fields. -/
def unresolvedFresh (now : Nat) : CacheEntry :=
  { resolved := false, lat := none, lon := none, state := none
    city := none, type_ := none, display_name := none, source := none
    confidence := none, hit_count := 1, first_seen := now, last_seen := now }

/-- `LocationCache.store_unresolvable(raw_text)`. -/
def LocationCache.store_unresolvable (self : LocationCache)
    (raw_text : String) (now : Nat) : LocationCache :=
  let key := LocationCache.normalize raw_text
  if key = "" then self
  else
    match alGet self.cache.entries key with
    | some e =>
      let entries := alSet self.cache.entries key (touchHit e now)
      { self with cache :=
          { self.cache with entries := entries, total_entries := entries.length } }
    | none =>
      let entries := alSet self.cache.entries key (unresolvedFresh now)
      { self with cache :=
          { self.cache with entries := entries, total_entries := entries.length } }

/-- `LocationCache.add_override(raw_text, data, reason)`. -/
def LocationCache.add_override (self : LocationCache) (raw_text : String)
    (data : OverrideEntry) (reason : String) : LocationCache :=
  let key := LocationCache.normalize raw_text
  if key = "" then self
  else
    let entry := if reason = "" then data else { data with reason := some reason }
    { self with overrides :=
        { overrides := alSet self.overrides.overrides key entry } }

/-- The dict returned by `LocationCache.get_stats`. -/
structure Stats where
  total_entries : Nat
  resolved : Nat
  unresolved : Nat
  total_lookups : Nat
  overrides : Nat
  sources : List (String × Nat)
deriving DecidableEq, Repr

/-- `LocationCache.get_stats`. -/
def LocationCache.get_stats (self : LocationCache) : Stats :=
  let entries := self.cache.entries
  let resolved := entries.filter (fun kv => kv.2.resolved)
  let unresolved := entries.filter (fun kv => !kv.2.resolved)
  let sources := resolved.foldl (fun m kv =>
    let src := kv.2.source.getD "unknown"
    alSet m src ((alGet m src).getD 0 + 1)) []
  { total_entries := entries.length
    resolved := resolved.length
    unresolved := unresolved.length
    total_lookups := self.cache.total_lookups
    overrides := self.overrides.overrides.length
    sources := sources }

/-- `LocationCache.save`: refresh `_meta.total_entries`, then write both
documents (modelled as producing the two on-disk file states). -/
def LocationCache.save (self : LocationCache) :
    (FileState CacheDoc × FileState OverridesDoc) × LocationCache :=
  let cache1 := { self.cache with total_entries := self.cache.entries.length }
  ((.valid cache1, .valid self.overrides), { self with cache := cache1 })

/-- The mutating public operations, for claims quantifying over "any
operation". -/
inductive CacheOp where
  | lookup (raw : String) (now : Nat)
  | store (raw : String) (data : StoreData) (source : String) (now : Nat)
  | store_unresolvable (raw : String) (now : Nat)
  | add_override (raw : String) (data : OverrideEntry) (reason : String)
  | save

def applyOp (op : CacheOp) (st : LocationCache) : LocationCache :=
  match op with
  | .lookup raw now => (st.lookup raw now).2
  | .store raw d src now => st.store raw d src now
  | .store_unresolvable raw now => st.store_unresolvable raw now
  | .add_override raw d reason => st.add_override raw d reason
  | .save => st.save.2

/-! ### Dictionary lemmas -/

theorem alGet_alSet_self {α : Type} (m : List (String × α)) (k : String) (v : α) :
    alGet (alSet m k v) k = some v := by
  induction m with
  | nil => simp [alSet, alGet]
  | cons hd tl ih =>
    obtain ⟨k0, v0⟩ := hd
    by_cases h : k0 = k
    · simp [alSet, alGet, h]
    · simp [alSet, alGet, h, ih]

theorem alGet_alSet_ne {α : Type} (m : List (String × α)) (k k2 : String) (v : α)
    (h : k2 ≠ k) : alGet (alSet m k v) k2 = alGet m k2 := by
  have hne : ¬(k = k2) := fun hh => h hh.symm
  induction m with
  | nil => simp [alSet, alGet, hne]
  | cons hd tl ih =>
    obtain ⟨k0, v0⟩ := hd
    by_cases h0 : k0 = k
    · subst h0
      simp [alSet, alGet, hne]
    · by_cases h2 : k0 = k2 <;> simp [alSet, alGet, h0, h2, ih, h]

theorem mem_insertSortedBy {α : Type} (le : α → α → Bool) (a x : α)
    (l : List α) (h : x ∈ insertSortedBy le a l) : x = a ∨ x ∈ l := by
  induction l with
  | nil => simpa [insertSortedBy] using h
  | cons b bs ih =>
    rw [insertSortedBy] at h
    split at h
    · rcases List.mem_cons.mp h with h2 | h2
      · exact Or.inl h2
      · exact Or.inr h2
    · rcases List.mem_cons.mp h with h2 | h2
      · exact Or.inr (by simp [h2])
      · rcases ih h2 with h3 | h3
        · exact Or.inl h3
        · exact Or.inr (by simp [h3])

theorem mem_insSortBy {α : Type} (le : α → α → Bool) (x : α) (l : List α)
    (h : x ∈ insSortBy le l) : x ∈ l := by
  induction l with
  | nil => simp [insSortBy] at h
  | cons a as ih =>
    rw [insSortBy] at h
    rcases mem_insertSortedBy le a x _ h with h2 | h2
    · simp [h2]
    · exact List.mem_cons_of_mem a (ih h2)

/-! ### Structural lemmas about the fuzzy cache search -/

theorem cacheCandidates_mem (threshold : Nat)
    (entries : List (String × CacheEntry)) (key : String) (c : Candidate)
    (hc : c ∈ cacheCandidates threshold entries key) :
    alGet entries c.key = some c.entry ∧ c.entry.resolved = true ∧
      (threshold : Rat) ≤ c.score := by
  rcases List.mem_filterMap.mp hc with ⟨r, _, hfr⟩
  by_cases hth : (threshold : Rat) ≤ r.score
  · rw [if_pos hth] at hfr
    rcases halg : alGet entries r.key with _ | e
    · rw [halg] at hfr
      cases hfr
    · rw [halg] at hfr
      dsimp only at hfr
      by_cases hres : e.resolved
      · rw [if_pos hres] at hfr
        injection hfr with hfr
        subst hfr
        exact ⟨halg, hres, hth⟩
      · rw [if_neg hres] at hfr
        cases hfr
  · rw [if_neg hth] at hfr
    cases hfr

/-- Either the fuzzy cache search misses and leaves the entries dict
alone, or it returns a touched copy of a resolved entry that was already
present, updating exactly that key. -/
theorem fuzzyCacheCore_spec (threshold : Nat)
    (entries : List (String × CacheEntry)) (key : String) (now : Nat) :
    fuzzyCacheCore threshold entries key now = ((none, 0), entries) ∨
    ∃ k0 e0 s0, alGet entries k0 = some e0 ∧ e0.resolved = true ∧
      fuzzyCacheCore threshold entries key now =
        ((some (touchHit e0 now), s0), alSet entries k0 (touchHit e0 now)) := by
  rw [fuzzyCacheCore]
  by_cases hks : (alKeys entries).isEmpty
  · rw [if_pos hks]
    exact Or.inl rfl
  · rw [if_neg hks]
    cases hsort : insSortBy candLe (cacheCandidates threshold entries key) with
    | nil => exact Or.inl rfl
    | cons best rest =>
      have hmem : best ∈ cacheCandidates threshold entries key :=
        mem_insSortBy _ best _ (by rw [hsort]; exact List.mem_cons_self _ _)
      obtain ⟨h1, h2, _⟩ := cacheCandidates_mem _ _ _ best hmem
      exact Or.inr ⟨best.key, best.entry, best.score, h1, h2, rfl⟩


/-! ### How each operation changes the state -/

theorem fuzzy_search_cache_snd (st : LocationCache) (key : String) (now : Nat) :
    (st.fuzzy_search_cache key now).2.overrides = st.overrides ∧
    (st.fuzzy_search_cache key now).2.fuzzy_threshold = st.fuzzy_threshold ∧
    (st.fuzzy_search_cache key now).2.cache.entries =
      (fuzzyCacheCore st.fuzzy_threshold st.cache.entries key now).2 ∧
    (st.fuzzy_search_cache key now).1 =
      (fuzzyCacheCore st.fuzzy_threshold st.cache.entries key now).1 :=
  ⟨rfl, rfl, rfl, rfl⟩

/-- `lookup` never modifies the override document or the threshold. -/
theorem lookup_preserves_overrides (st : LocationCache) (raw : String) (now : Nat) :
    (st.lookup raw now).2.overrides = st.overrides ∧
    (st.lookup raw now).2.fuzzy_threshold = st.fuzzy_threshold := by
  unfold LocationCache.lookup
  dsimp only
  split
  · exact ⟨rfl, rfl⟩
  · split
    · exact ⟨rfl, rfl⟩
    · split
      · exact ⟨rfl, rfl⟩
      · split
        · split
          · exact ⟨rfl, rfl⟩
          · exact ⟨rfl, rfl⟩
        · split
          · next e score self2 heq =>
              have h2 := congrArg (fun q => q.2.overrides) heq
              have h3 := congrArg (fun q => q.2.fuzzy_threshold) heq
              simp only at h2 h3
              exact ⟨h2 ▸ rfl, h3 ▸ rfl⟩
          · next self2 heq =>
              have h2 := congrArg (fun q => q.2.overrides) heq
              have h3 := congrArg (fun q => q.2.fuzzy_threshold) heq
              simp only at h2 h3
              exact ⟨h2 ▸ rfl, h3 ▸ rfl⟩

/-- `lookup` leaves the entries dict alone except possibly for one
in-place `_touch_hit` of an entry that was already present. -/
theorem lookup_entries_spec (st : LocationCache) (raw : String) (now : Nat) :
    (st.lookup raw now).2.cache.entries = st.cache.entries ∨
    ∃ k0 e0, alGet st.cache.entries k0 = some e0 ∧
      (st.lookup raw now).2.cache.entries =
        alSet st.cache.entries k0 (touchHit e0 now) := by
  unfold LocationCache.lookup
  dsimp only
  split
  · exact Or.inl rfl
  · split
    · exact Or.inl rfl
    · split
      · exact Or.inl rfl
      · split
        · next e heq =>
          split
          · exact Or.inr ⟨_, e, heq, rfl⟩
          · exact Or.inr ⟨_, e, heq, rfl⟩
        · split
          · next e score self2 heq =>
            have hent : self2.cache.entries =
                (fuzzyCacheCore st.fuzzy_threshold st.cache.entries
                  (LocationCache.normalize raw) now).2 :=
              (congrArg (fun q => q.2.cache.entries) heq).symm
            rcases fuzzyCacheCore_spec st.fuzzy_threshold st.cache.entries
                (LocationCache.normalize raw) now with hc | ⟨k0, e0, s0, h1, _, hc⟩
            · rw [hc] at hent
              exact Or.inl hent
            · rw [hc] at hent
              exact Or.inr ⟨k0, e0, h1, hent⟩
          · next self2 heq =>
            have hent : self2.cache.entries =
                (fuzzyCacheCore st.fuzzy_threshold st.cache.entries
                  (LocationCache.normalize raw) now).2 :=
              (congrArg (fun q => q.2.cache.entries) heq).symm
            rcases fuzzyCacheCore_spec st.fuzzy_threshold st.cache.entries
                (LocationCache.normalize raw) now with hc | ⟨k0, e0, s0, h1, _, hc⟩
            · rw [hc] at hent
              exact Or.inl hent
            · rw [hc] at hent
              exact Or.inr ⟨k0, e0, h1, hent⟩

theorem add_override_entries (st : LocationCache) (raw : String)
    (d : OverrideEntry) (reason : String) :
    (st.add_override raw d reason).cache.entries = st.cache.entries := by
  unfold LocationCache.add_override
  dsimp only
  split
  · rfl
  · rfl

theorem save_entries (st : LocationCache) :
    st.save.2.cache.entries = st.cache.entries := rfl

/-- How the entry stored at any key evolves across one public operation:
its hit count never decreases, its `first_seen` never changes, and a
resolved entry never becomes unresolved. -/
theorem applyOp_entry_evolution (op : CacheOp) (st : LocationCache)
    (k : String) (e e2 : CacheEntry)
    (hbefore : alGet st.cache.entries k = some e)
    (hafter : alGet (applyOp op st).cache.entries k = some e2) :
    e.hit_count ≤ e2.hit_count ∧ e2.first_seen = e.first_seen ∧
      (e.resolved = true → e2.resolved = true) := by
  cases op with
  | lookup raw now =>
    rw [show applyOp (.lookup raw now) st = (st.lookup raw now).2 from rfl] at hafter
    rcases lookup_entries_spec st raw now with h | ⟨k0, e0, h1, h2⟩
    · rw [h, hbefore] at hafter
      injection hafter with hafter
      subst hafter
      exact ⟨Nat.le_refl _, rfl, fun hr => hr⟩
    · rw [h2] at hafter
      by_cases hk : k = k0
      · subst hk
        rw [alGet_alSet_self] at hafter
        injection hafter with hafter
        subst hafter
        rw [hbefore] at h1
        injection h1 with h1
        subst h1
        exact ⟨Nat.le_succ _, rfl, fun hr => hr⟩
      · rw [alGet_alSet_ne _ _ _ _ hk, hbefore] at hafter
        injection hafter with hafter
        subst hafter
        exact ⟨Nat.le_refl _, rfl, fun hr => hr⟩
  | store raw d src now =>
    rw [show applyOp (.store raw d src now) st = st.store raw d src now from rfl]
      at hafter
    unfold LocationCache.store at hafter
    dsimp only at hafter
    split at hafter
    · rw [hbefore] at hafter
      injection hafter with hafter
      subst hafter
      exact ⟨Nat.le_refl _, rfl, fun hr => hr⟩
    · by_cases hk : k = LocationCache.normalize raw
      · subst hk
        rw [alGet_alSet_self] at hafter
        injection hafter with hafter
        subst hafter
        rw [hbefore]
        dsimp only
        exact ⟨Nat.le_succ _, rfl, fun _ => rfl⟩
      · rw [alGet_alSet_ne _ _ _ _ hk, hbefore] at hafter
        injection hafter with hafter
        subst hafter
        exact ⟨Nat.le_refl _, rfl, fun hr => hr⟩
  | store_unresolvable raw now =>
    rw [show applyOp (.store_unresolvable raw now) st =
      st.store_unresolvable raw now from rfl] at hafter
    unfold LocationCache.store_unresolvable at hafter
    dsimp only at hafter
    split at hafter
    · rw [hbefore] at hafter
      injection hafter with hafter
      subst hafter
      exact ⟨Nat.le_refl _, rfl, fun hr => hr⟩
    · split at hafter
      · next e3 heq3 =>
        by_cases hk : k = LocationCache.normalize raw
        · subst hk
          rw [alGet_alSet_self] at hafter
          injection hafter with hafter
          subst hafter
          rw [hbefore] at heq3
          injection heq3 with heq3
          subst heq3
          exact ⟨Nat.le_succ _, rfl, fun hr => hr⟩
        · rw [alGet_alSet_ne _ _ _ _ hk, hbefore] at hafter
          injection hafter with hafter
          subst hafter
          exact ⟨Nat.le_refl _, rfl, fun hr => hr⟩
      · next heq3 =>
        by_cases hk : k = LocationCache.normalize raw
        · subst hk
          rw [hbefore] at heq3
          cases heq3
        · rw [alGet_alSet_ne _ _ _ _ hk, hbefore] at hafter
          injection hafter with hafter
          subst hafter
          exact ⟨Nat.le_refl _, rfl, fun hr => hr⟩
  | add_override raw d reason =>
    rw [show applyOp (.add_override raw d reason) st =
      st.add_override raw d reason from rfl, add_override_entries, hbefore] at hafter
    injection hafter with hafter
    subst hafter
    exact ⟨Nat.le_refl _, rfl, fun hr => hr⟩
  | save =>
    rw [show applyOp .save st = st.save.2 from rfl, save_entries, hbefore] at hafter
    injection hafter with hafter
    subst hafter
    exact ⟨Nat.le_refl _, rfl, fun hr => hr⟩

theorem store_unresolvable_preserves (st : LocationCache) (raw : String)
    (now : Nat) :
    (st.store_unresolvable raw now).overrides = st.overrides ∧
    (st.store_unresolvable raw now).fuzzy_threshold = st.fuzzy_threshold := by
  unfold LocationCache.store_unresolvable
  dsimp only
  split
  · exact ⟨rfl, rfl⟩
  · split
    · exact ⟨rfl, rfl⟩
    · exact ⟨rfl, rfl⟩

theorem store_unresolvable_existing (st : LocationCache) (raw : String)
    (now : Nat) (e : CacheEntry)
    (hk : LocationCache.normalize raw ≠ "")
    (he : alGet st.cache.entries (LocationCache.normalize raw) = some e) :
    (st.store_unresolvable raw now).cache.entries =
      alSet st.cache.entries (LocationCache.normalize raw) (touchHit e now) := by
  unfold LocationCache.store_unresolvable
  dsimp only
  rw [if_neg hk, he]

theorem store_unresolvable_fresh (st : LocationCache) (raw : String)
    (now : Nat)
    (hk : LocationCache.normalize raw ≠ "")
    (he : alGet st.cache.entries (LocationCache.normalize raw) = none) :
    (st.store_unresolvable raw now).cache.entries =
      alSet st.cache.entries (LocationCache.normalize raw)
        (unresolvedFresh now) := by
  unfold LocationCache.store_unresolvable
  dsimp only
  rw [if_neg hk, he]

theorem fuzzy_search_overrides_congr (st1 st2 : LocationCache) (key : String)
    (h1 : st1.overrides = st2.overrides)
    (h2 : st1.fuzzy_threshold = st2.fuzzy_threshold) :
    st1.fuzzy_search_overrides key = st2.fuzzy_search_overrides key := by
  unfold LocationCache.fuzzy_search_overrides
  rw [h1, h2]

theorem lookup_exact_override (st : LocationCache) (k : String) (now : Nat)
    (ov : OverrideEntry)
    (hk : LocationCache.normalize k ≠ "")
    (hov : alGet st.overrides.overrides (LocationCache.normalize k) = some ov) :
    st.lookup k now =
      ((some (.ovr ov), 100),
       { st with cache :=
           { st.cache with total_lookups := st.cache.total_lookups + 1 } }) := by
  unfold LocationCache.lookup
  dsimp only
  rw [if_neg hk, hov]

theorem lookup_exact_cache (st : LocationCache) (k : String) (now : Nat)
    (e : CacheEntry)
    (hk : LocationCache.normalize k ≠ "")
    (hov : alGet st.overrides.overrides (LocationCache.normalize k) = none)
    (hfz : (st.fuzzy_search_overrides (LocationCache.normalize k)).1 = none)
    (he : alGet st.cache.entries (LocationCache.normalize k) = some e) :
    st.lookup k now =
      ((if e.resolved then some (.ent (touchHit e now)) else none,
        if e.resolved then 100 else -1),
       { st with cache :=
           { st.cache with
               total_lookups := st.cache.total_lookups + 1,
               entries := alSet st.cache.entries (LocationCache.normalize k)
                 (touchHit e now) } }) := by
  unfold LocationCache.lookup
  dsimp only
  rw [if_neg hk, hov]
  dsimp only
  unfold LocationCache.fuzzy_search_overrides at hfz ⊢
  dsimp only at hfz ⊢
  rcases hp : fuzzyOvCore st.fuzzy_threshold st.overrides.overrides
      (LocationCache.normalize k) with ⟨o, s⟩
  rw [hp] at hfz
  dsimp only at hfz
  subst hfz
  dsimp only
  rw [he]
  dsimp only
  rw [show (touchHit e now).resolved = e.resolved from rfl]
  by_cases hres : e.resolved
  · rw [if_pos hres, if_pos hres, if_pos hres]
  · rw [if_neg hres, if_neg hres, if_neg hres]

theorem fuzzy_search_overrides_empty (st : LocationCache) (key : String)
    (h : st.overrides.overrides = []) :
    st.fuzzy_search_overrides key = (none, 0) := by
  unfold LocationCache.fuzzy_search_overrides fuzzyOvCore
  rw [h]
  rfl

theorem store_entries_spec (st : LocationCache) (raw : String) (d : StoreData)
    (src : String) (now : Nat)
    (hk : LocationCache.normalize raw ≠ "") :
    (st.store raw d src now).cache.entries =
      alSet st.cache.entries (LocationCache.normalize raw)
        { resolved := true, lat := d.lat, lon := d.lon
          state := some (d.state.getD ""), city := some (d.city.getD "")
          type_ := some (d.type_.getD "")
          display_name := some (d.display_name.getD "")
          source := some src
          confidence := some (d.confidence.getD ((9 : Rat)/10))
          hit_count :=
            match alGet st.cache.entries (LocationCache.normalize raw) with
            | some e => e.hit_count + 1
            | none => 1
          first_seen :=
            match alGet st.cache.entries (LocationCache.normalize raw) with
            | some e => e.first_seen
            | none => now
          last_seen := now } := by
  unfold LocationCache.store
  dsimp only
  rw [if_neg hk]

/-! ### Claim theorems -/

/-- C3: Override supremacy — for a key present (in normalized form) in
both the override document and the cache's resolved entries with
differing data, `lookup` returns the override's data with confidence
100.0; the cache entry (universally quantified here) is never consulted
for the return value. -/
theorem C3_override_supremacy (st : LocationCache) (k : String) (now : Nat)
    (ov : OverrideEntry) (e : CacheEntry)
    (hk : LocationCache.normalize k ≠ "")
    (hov : alGet st.overrides.overrides (LocationCache.normalize k) = some ov)
    (_he : alGet st.cache.entries (LocationCache.normalize k) = some e)
    (_hres : e.resolved = true)
    (_hdiff : ov.lat ≠ e.lat) :
    (st.lookup k now).1 = (some (.ovr ov), 100) := by
  rw [lookup_exact_override st k now ov hk hov]

/-- C2: Unresolvable sentinel short-circuit — for a key whose entry is
absent or unresolved and which matches no override (exactly or fuzzily),
`lookup` after `store_unresolvable` returns exactly `(None, -1.0)`. -/
theorem C2_unresolvable_short_circuit (st : LocationCache) (k : String)
    (now now2 : Nat)
    (hk : LocationCache.normalize k ≠ "")
    (hov : alGet st.overrides.overrides (LocationCache.normalize k) = none)
    (hfz : (st.fuzzy_search_overrides (LocationCache.normalize k)).1 = none)
    (hres : alGet st.cache.entries (LocationCache.normalize k) = none ∨
      ∃ e, alGet st.cache.entries (LocationCache.normalize k) = some e ∧
        e.resolved = false) :
    ((st.store_unresolvable k now).lookup k now2).1 = (none, -1) := by
  obtain ⟨hov2p, hth2p⟩ := store_unresolvable_preserves st k now
  have hov2 : alGet (st.store_unresolvable k now).overrides.overrides
      (LocationCache.normalize k) = none := by rw [hov2p]; exact hov
  have hfz2 : ((st.store_unresolvable k now).fuzzy_search_overrides
      (LocationCache.normalize k)).1 = none := by
    rw [fuzzy_search_overrides_congr _ st _ hov2p hth2p]
    exact hfz
  rcases hres with hnone | ⟨e, he, hres⟩
  · have he2 : alGet (st.store_unresolvable k now).cache.entries
        (LocationCache.normalize k) = some (unresolvedFresh now) := by
      rw [store_unresolvable_fresh st k now hk hnone]
      exact alGet_alSet_self _ _ _
    rw [lookup_exact_cache _ k now2 _ hk hov2 hfz2 he2]
    rfl
  · have he2 : alGet (st.store_unresolvable k now).cache.entries
        (LocationCache.normalize k) = some (touchHit e now) := by
      rw [store_unresolvable_existing st k now e hk he]
      exact alGet_alSet_self _ _ _
    rw [lookup_exact_cache _ k now2 _ hk hov2 hfz2 he2]
    have hres2 : (touchHit e now).resolved = false := hres
    simp [hres2]

/-- C10: An exact cache lookup of an unresolved key returns the sentinel
`(None, -1.0)` yet still touches the entry: its hit count is incremented
by exactly one and `last_seen` refreshed, while every other entry and the
override document are unchanged. -/
theorem C10_unresolved_exact_hit_touches (st : LocationCache) (k : String)
    (now : Nat) (e : CacheEntry)
    (hk : LocationCache.normalize k ≠ "")
    (hov : alGet st.overrides.overrides (LocationCache.normalize k) = none)
    (hfz : (st.fuzzy_search_overrides (LocationCache.normalize k)).1 = none)
    (he : alGet st.cache.entries (LocationCache.normalize k) = some e)
    (hres : e.resolved = false) :
    (st.lookup k now).1 = (none, -1) ∧
    alGet (st.lookup k now).2.cache.entries (LocationCache.normalize k) =
      some { e with hit_count := e.hit_count + 1, last_seen := now } ∧
    (∀ k2, k2 ≠ LocationCache.normalize k →
      alGet (st.lookup k now).2.cache.entries k2 =
        alGet st.cache.entries k2) ∧
    (st.lookup k now).2.overrides = st.overrides := by
  rw [lookup_exact_cache st k now e hk hov hfz he]
  refine ⟨by simp [hres], ?_, ?_, rfl⟩
  · dsimp only
    exact alGet_alSet_self _ _ _
  · intro k2 hk2
    dsimp only
    exact alGet_alSet_ne _ _ _ _ hk2

/-- C4: Resolved entries are never downgraded — `store_unresolvable` on a
resolved key only hit-bumps that entry (all data fields kept, `resolved`
still true) and leaves every other entry alone; and no public operation
ever turns a resolved entry into an unresolved one. -/
theorem C4_resolved_never_downgraded :
    (∀ (st : LocationCache) (k : String) (now : Nat) (e : CacheEntry),
      LocationCache.normalize k ≠ "" →
      alGet st.cache.entries (LocationCache.normalize k) = some e →
      e.resolved = true →
      alGet (st.store_unresolvable k now).cache.entries
          (LocationCache.normalize k) =
        some { e with hit_count := e.hit_count + 1, last_seen := now } ∧
      (∀ k2, k2 ≠ LocationCache.normalize k →
        alGet (st.store_unresolvable k now).cache.entries k2 =
          alGet st.cache.entries k2)) ∧
    (∀ (op : CacheOp) (st : LocationCache) (k : String) (e e2 : CacheEntry),
      alGet st.cache.entries k = some e → e.resolved = true →
      alGet (applyOp op st).cache.entries k = some e2 →
      e2.resolved = true) := by
  constructor
  · intro st k now e hk he _hres
    rw [store_unresolvable_existing st k now e hk he]
    exact ⟨alGet_alSet_self _ _ _, fun k2 hk2 => alGet_alSet_ne _ _ _ _ hk2⟩
  · intro op st k e e2 h1 hres h2
    exact (applyOp_entry_evolution op st k e e2 h1 h2).2.2 hres

/-- C6: Hit-count monotonicity and `first_seen` immutability — `store`
initializes `hit_count` to 1 on a new key, strictly increments it on an
existing key while preserving `first_seen`, and across every public
operation an entry's hit count never decreases and its `first_seen` never
changes. -/
theorem C6_hit_count_monotonic :
    (∀ (st : LocationCache) (k : String) (d : StoreData) (src : String)
        (now : Nat),
      LocationCache.normalize k ≠ "" →
      alGet st.cache.entries (LocationCache.normalize k) = none →
      ∃ e2, alGet (st.store k d src now).cache.entries
          (LocationCache.normalize k) = some e2 ∧
        e2.hit_count = 1 ∧ e2.first_seen = now) ∧
    (∀ (st : LocationCache) (k : String) (d : StoreData) (src : String)
        (now : Nat) (e : CacheEntry),
      LocationCache.normalize k ≠ "" →
      alGet st.cache.entries (LocationCache.normalize k) = some e →
      ∃ e2, alGet (st.store k d src now).cache.entries
          (LocationCache.normalize k) = some e2 ∧
        e2.hit_count = e.hit_count + 1 ∧ e2.first_seen = e.first_seen) ∧
    (∀ (op : CacheOp) (st : LocationCache) (k : String) (e e2 : CacheEntry),
      alGet st.cache.entries k = some e →
      alGet (applyOp op st).cache.entries k = some e2 →
      e.hit_count ≤ e2.hit_count ∧ e2.first_seen = e.first_seen) := by
  refine ⟨?_, ?_, ?_⟩
  · intro st k d src now hk hnone
    rw [store_entries_spec st k d src now hk]
    refine ⟨_, alGet_alSet_self _ _ _, ?_, ?_⟩
    · dsimp only
      rw [hnone]
    · dsimp only
      rw [hnone]
  · intro st k d src now e hk he
    rw [store_entries_spec st k d src now hk]
    refine ⟨_, alGet_alSet_self _ _ _, ?_, ?_⟩
    · dsimp only
      rw [he]
    · dsimp only
      rw [he]
  · intro op st k e e2 h1 h2
    exact ⟨(applyOp_entry_evolution op st k e e2 h1 h2).1,
      (applyOp_entry_evolution op st k e e2 h1 h2).2.1⟩

theorem store_overrides_eq (st : LocationCache) (raw : String) (d : StoreData)
    (src : String) (now : Nat) :
    (st.store raw d src now).overrides = st.overrides ∧
    (st.store raw d src now).fuzzy_threshold = st.fuzzy_threshold := by
  unfold LocationCache.store
  dsimp only
  split
  · exact ⟨rfl, rfl⟩
  · exact ⟨rfl, rfl⟩

/-- C5 (amended): the fuzzy cache step never returns an unresolved entry
— whatever `_fuzzy_search_cache` returns is a touched copy of a resolved
entry. -/
theorem C5_fuzzy_cache_resolved_only (st : LocationCache) (key : String)
    (now : Nat) (e : CacheEntry) (s : Rat) (st2 : LocationCache)
    (h : st.fuzzy_search_cache key now = ((some e, s), st2)) :
    e.resolved = true := by
  have h1 : (st.fuzzy_search_cache key now).1 = (some e, s) := by rw [h]
  rw [(fuzzy_search_cache_snd st key now).2.2.2] at h1
  rcases fuzzyCacheCore_spec st.fuzzy_threshold st.cache.entries key now with
    hc | ⟨k0, e0, s0, _, hres, hc⟩
  · rw [hc] at h1
    dsimp only at h1
    injection h1 with h1a _
    cases h1a
  · rw [hc] at h1
    dsimp only at h1
    injection h1 with h1a _
    injection h1a with h1a
    rw [← h1a]
    exact hres

/-- C9: Corrupt-file resilience — constructing a cache over a corrupt
(invalid JSON or unreadable) or missing `location_cache.json` yields the
empty default document, and `get_stats().total_entries == 0`, with no
exception (the embedding is total). -/
theorem C9_corrupt_file_resilience :
    ∀ (fo : FileState OverridesDoc) (th : Nat),
      (LocationCache.init .corrupt fo th).cache = emptyCacheDoc ∧
      (LocationCache.init .corrupt fo th).get_stats.total_entries = 0 ∧
      (LocationCache.init .missing fo th).cache = emptyCacheDoc ∧
      (LocationCache.init .missing fo th).get_stats.total_entries = 0 :=
  fun _ _ => ⟨rfl, rfl, rfl, rfl⟩

/-- C8: Persistence round-trip — starting from an empty cache directory,
`store(k, d)`, `save()`, reload into a fresh instance, `lookup(k)`
returns an entry carrying exactly the stored coordinate and descriptive
data, with confidence 100.0. -/
theorem C8_round_trip (k : String) (d : StoreData) (src : String)
    (now now2 th : Nat)
    (hk : LocationCache.normalize k ≠ "") :
    ∃ e : CacheEntry,
      ((LocationCache.init
          ((LocationCache.init .missing .missing th).store k d src now).save.1.1
          ((LocationCache.init .missing .missing th).store k d src now).save.1.2
          th).lookup k now2).1 = (some (.ent e), 100) ∧
      e.resolved = true ∧ e.lat = d.lat ∧ e.lon = d.lon ∧
      e.state = some (d.state.getD "") ∧ e.city = some (d.city.getD "") ∧
      e.type_ = some (d.type_.getD "") ∧
      e.display_name = some (d.display_name.getD "") ∧
      e.confidence = some (d.confidence.getD ((9 : Rat)/10)) := by
  set st0 := LocationCache.init .missing .missing th with hst0
  set st1 := st0.store k d src now with hst1
  set st2 := LocationCache.init st1.save.1.1 st1.save.1.2 th with hst2
  have hovempty : st2.overrides.overrides = [] := by
    rw [show st2.overrides = st1.overrides from rfl, (store_overrides_eq st0 k d src now).1]
    rfl
  have hov2 : alGet st2.overrides.overrides (LocationCache.normalize k) = none := by
    rw [hovempty]
    rfl
  have hfz2 : (st2.fuzzy_search_overrides (LocationCache.normalize k)).1 = none := by
    rw [fuzzy_search_overrides_empty st2 _ hovempty]
  have he2 : alGet st2.cache.entries (LocationCache.normalize k) =
      some { resolved := true, lat := d.lat, lon := d.lon
             state := some (d.state.getD ""), city := some (d.city.getD "")
             type_ := some (d.type_.getD "")
             display_name := some (d.display_name.getD "")
             source := some src
             confidence := some (d.confidence.getD ((9 : Rat)/10))
             hit_count := 1, first_seen := now, last_seen := now } := by
    rw [show st2.cache.entries = st1.cache.entries from rfl, hst1,
      store_entries_spec st0 k d src now hk]
    rw [alGet_alSet_self]
    rfl
  rw [lookup_exact_cache st2 k now2 _ hk hov2 hfz2 he2]
  exact ⟨_, rfl, rfl, rfl, rfl, rfl, rfl, rfl, rfl, rfl⟩

/-! ### Normalization: idempotence machinery -/

/-- Adjacent characters are never both whitespace. -/
def SpacedOK (l : List Char) : Prop :=
  l.Chain' (fun a b => (pyIsSpace a && pyIsSpace b) = false)

theorem charOfNat_toNat : ∀ n, n < 123 → (Char.ofNat n).toNat = n := by decide

theorem pyLower_idem (c : Char) : pyLower (pyLower c) = pyLower c := by
  by_cases h : 65 ≤ c.toNat ∧ c.toNat ≤ 90
  · have h1 : pyLower c = Char.ofNat (c.toNat + 32) := by
      simp only [pyLower, if_pos h]
    have htn : (Char.ofNat (c.toNat + 32)).toNat = c.toNat + 32 :=
      charOfNat_toNat _ (by omega)
    rw [h1]
    simp only [pyLower, htn]
    rw [if_neg (by omega)]
  · have h1 : pyLower c = c := by simp only [pyLower, if_neg h]
    rw [h1, h1]

theorem mapFix {f : Char → Char} : ∀ (l : List Char),
    (∀ c ∈ l, f c = c) → l.map f = l := by
  intro l h
  induction l with
  | nil => rfl
  | cons a t ih =>
    rw [List.map_cons, h a (List.mem_cons_self a t),
      ih (fun c hc => h c (List.mem_cons_of_mem a hc))]

theorem dropWhileFix {p : Char → Bool} : ∀ (l : List Char),
    (∀ c, l.head? = some c → p c = false) → l.dropWhile p = l := by
  intro l h
  cases l with
  | nil => rfl
  | cons a t =>
    rw [List.dropWhile_cons, h a rfl]
    simp

theorem dropWhile_head {p : Char → Bool} : ∀ (l : List Char) (c : Char),
    (l.dropWhile p).head? = some c → p c = false := by
  intro l
  induction l with
  | nil => intro c h; cases h
  | cons a t ih =>
    intro c h
    rw [List.dropWhile_cons] at h
    by_cases hp : p a
    · rw [if_pos hp] at h
      exact ih c h
    · rw [if_neg hp] at h
      injection h with h
      subst h
      simpa using hp

theorem pyStrip_front (l : List Char) : pyStrip l <+: l.dropWhile pyIsSpace := by
  unfold pyStrip
  apply List.reverse_suffix.mp
  rw [List.reverse_reverse]
  exact List.dropWhile_suffix pyIsSpace

theorem prefix_head {l1 l2 : List Char} (h : l1 <+: l2) (c : Char)
    (hc : l1.head? = some c) : l2.head? = some c := by
  obtain ⟨u, hu⟩ := h
  subst hu
  cases l1 with
  | nil => cases hc
  | cons a t =>
    injection hc with hc
    subst hc
    rfl

theorem pyStrip_head (l : List Char) (c : Char)
    (hc : (pyStrip l).head? = some c) : pyIsSpace c = false :=
  dropWhile_head l c (prefix_head (pyStrip_front l) c hc)

theorem pyStrip_last (l : List Char) (c : Char)
    (hc : (pyStrip l).getLast? = some c) : pyIsSpace c = false := by
  unfold pyStrip at hc
  rw [List.getLast?_reverse] at hc
  exact dropWhile_head _ c hc

theorem pyStrip_mem (l : List Char) (c : Char) (hc : c ∈ pyStrip l) : c ∈ l := by
  unfold pyStrip at hc
  rw [List.mem_reverse] at hc
  have h1 : c ∈ (l.dropWhile pyIsSpace).reverse :=
    (List.dropWhile_suffix pyIsSpace).sublist.mem hc
  rw [List.mem_reverse] at h1
  exact (List.dropWhile_suffix pyIsSpace).sublist.mem h1

theorem pyStripFix (l : List Char)
    (h1 : ∀ c, l.head? = some c → pyIsSpace c = false)
    (h2 : ∀ c, l.getLast? = some c → pyIsSpace c = false) : pyStrip l = l := by
  unfold pyStrip
  rw [dropWhileFix l h1]
  rw [dropWhileFix l.reverse (fun c hc => h2 c (by rwa [List.head?_reverse] at hc))]
  exact List.reverse_reverse l

theorem pyStrip_chain (l : List Char) (h : SpacedOK l) : SpacedOK (pyStrip l) := by
  unfold SpacedOK at h ⊢
  unfold pyStrip
  have hflip : ∀ (m : List Char), m.Chain' (fun a b => (pyIsSpace a && pyIsSpace b) = false) →
      m.reverse.Chain' (fun a b => (pyIsSpace a && pyIsSpace b) = false) := by
    intro m hm
    rw [List.chain'_reverse]
    exact hm.imp (fun a b hab => by
      show (pyIsSpace b && pyIsSpace a) = false
      rw [Bool.and_comm]
      exact hab)
  exact hflip _ ((hflip _ (h.suffix (List.dropWhile_suffix _))).suffix
    (List.dropWhile_suffix _))

theorem subPunct_mem (l : List Char) (c : Char) (hc : c ∈ subPunct l) :
    c = ' ' ∨ (c ∈ l ∧ isPunctChar c = false) := by
  unfold subPunct at hc
  rcases List.mem_map.mp hc with ⟨a, ha, hfa⟩
  by_cases hp : isPunctChar a
  · rw [if_pos hp] at hfa
    exact Or.inl hfa.symm
  · rw [if_neg hp] at hfa
    subst hfa
    exact Or.inr ⟨ha, by simpa using hp⟩

theorem subPunctFix (l : List Char) (h : ∀ c ∈ l, isPunctChar c = false) :
    subPunct l = l :=
  mapFix l (fun c hc => by simp [h c hc])

theorem collapse_eq_space_true {a : Char} (t : List Char)
    (hs : pyIsSpace a = true) :
    collapseWSAux true (a :: t) = collapseWSAux true t := by
  simp [collapseWSAux, hs]

theorem collapse_eq_space_false {a : Char} (t : List Char)
    (hs : pyIsSpace a = true) :
    collapseWSAux false (a :: t) = ' ' :: collapseWSAux true t := by
  simp [collapseWSAux, hs]

theorem collapse_eq_nonspace {a : Char} (t : List Char) (b : Bool)
    (hs : pyIsSpace a = false) :
    collapseWSAux b (a :: t) = a :: collapseWSAux false t := by
  simp [collapseWSAux, hs]

theorem collapse_mem : ∀ (l : List Char) (b : Bool) (c : Char),
    c ∈ collapseWSAux b l → c = ' ' ∨ (c ∈ l ∧ pyIsSpace c = false) := by
  intro l
  induction l with
  | nil =>
    intro b c h
    cases h
  | cons a t ih =>
    intro b c h
    by_cases hs : pyIsSpace a
    · cases b with
      | true =>
        rw [collapse_eq_space_true t hs] at h
        rcases ih true c h with h2 | ⟨h3, h4⟩
        · exact Or.inl h2
        · exact Or.inr ⟨List.mem_cons_of_mem a h3, h4⟩
      | false =>
        rw [collapse_eq_space_false t hs] at h
        rcases List.mem_cons.mp h with h2 | h2
        · exact Or.inl h2
        · rcases ih true c h2 with h3 | ⟨h4, h5⟩
          · exact Or.inl h3
          · exact Or.inr ⟨List.mem_cons_of_mem a h4, h5⟩
    · rw [collapse_eq_nonspace t b (by simpa using hs)] at h
      rcases List.mem_cons.mp h with h2 | h2
      · rw [h2]
        exact Or.inr ⟨List.mem_cons_self a t, by simpa using hs⟩
      · rcases ih false c h2 with h3 | ⟨h4, h5⟩
        · exact Or.inl h3
        · exact Or.inr ⟨List.mem_cons_of_mem a h4, h5⟩

theorem collapse_chain : ∀ (l : List Char) (b : Bool),
    SpacedOK (collapseWSAux b l) ∧
    (b = true → ∀ c, (collapseWSAux b l).head? = some c →
      pyIsSpace c = false) := by
  intro l
  induction l with
  | nil =>
    intro b
    constructor
    · show List.Chain' _ ([] : List Char)
      exact List.chain'_nil
    · intro _ c h
      cases h
  | cons a t ih =>
    intro b
    by_cases hs : pyIsSpace a
    · cases b with
      | true =>
        rw [collapse_eq_space_true t hs]
        exact ⟨(ih true).1, fun _ => (ih true).2 rfl⟩
      | false =>
        rw [collapse_eq_space_false t hs]
        refine ⟨?_, ?_⟩
        · unfold SpacedOK
          rw [List.chain'_cons']
          refine ⟨?_, (ih true).1⟩
          intro y hy
          rw [Option.mem_def] at hy
          have hns := (ih true).2 rfl y hy
          simp [hns]
        · intro hb
          cases hb
    · have hs2 : pyIsSpace a = false := by simpa using hs
      rw [collapse_eq_nonspace t b hs2]
      refine ⟨?_, ?_⟩
      · unfold SpacedOK
        rw [List.chain'_cons']
        refine ⟨?_, (ih false).1⟩
        intro y _
        simp [hs2]
      · intro _ c h
        injection h with h
        subst h
        exact hs2

theorem collapseFixAux : ∀ (l : List Char) (b : Bool),
    (∀ c ∈ l, pyIsSpace c = true → c = ' ') → SpacedOK l →
    (b = true → ∀ c, l.head? = some c → pyIsSpace c = false) →
    collapseWSAux b l = l := by
  intro l
  induction l with
  | nil =>
    intro b _ _ _
    rfl
  | cons a t ih =>
    intro b hsp hch hhd
    have hcht : SpacedOK t := (List.chain'_cons'.mp hch).2
    have hspt : ∀ c ∈ t, pyIsSpace c = true → c = ' ' :=
      fun c hc => hsp c (List.mem_cons_of_mem a hc)
    by_cases hs : pyIsSpace a
    · have ha : a = ' ' := hsp a (List.mem_cons_self a t) hs
      cases b with
      | true => exact absurd hs (by simpa using hhd rfl a rfl)
      | false =>
        rw [collapse_eq_space_false t hs, ha]
        congr 1
        apply ih true hspt hcht
        intro _ c hc
        have hpair := (List.chain'_cons'.mp hch).1 c (Option.mem_def.mpr hc)
        rw [hs] at hpair
        simpa using hpair
    · have hs2 : pyIsSpace a = false := by simpa using hs
      rw [collapse_eq_nonspace t b hs2]
      congr 1
      apply ih false hspt hcht
      intro hb
      cases hb

theorem collapseFix (l : List Char)
    (hsp : ∀ c ∈ l, pyIsSpace c = true → c = ' ') (hch : SpacedOK l) :
    collapseWS l = l :=
  collapseFixAux l false hsp hch (fun hb => nomatch hb)

/-- The output of `normalizeL` is in normal form: lower-fixed,
punctuation-free, all whitespace is a single plain space, never two
adjacent spaces, and no leading or trailing space. -/
theorem normalizeL_NF (l : List Char) :
    (∀ c ∈ normalizeL l, pyLower c = c) ∧
    (∀ c ∈ normalizeL l, isPunctChar c = false) ∧
    (∀ c ∈ normalizeL l, pyIsSpace c = true → c = ' ') ∧
    SpacedOK (normalizeL l) ∧
    (∀ c, (normalizeL l).head? = some c → pyIsSpace c = false) ∧
    (∀ c, (normalizeL l).getLast? = some c → pyIsSpace c = false) := by
  unfold normalizeL
  refine ⟨?_, ?_, ?_, ?_, ?_, ?_⟩
  · intro c hc
    rcases collapse_mem _ false c (pyStrip_mem _ c hc) with h | ⟨h, _⟩
    · rw [h]
      rfl
    · rcases subPunct_mem _ c h with h2 | ⟨h2, _⟩
      · rw [h2]
        rfl
      · rcases List.mem_map.mp (pyStrip_mem _ c h2) with ⟨a, _, ha⟩
        rw [← ha]
        exact pyLower_idem a
  · intro c hc
    rcases collapse_mem _ false c (pyStrip_mem _ c hc) with h | ⟨h, _⟩
    · rw [h]
      rfl
    · rcases subPunct_mem _ c h with h2 | ⟨_, h3⟩
      · rw [h2]
        rfl
      · exact h3
  · intro c hc
    rcases collapse_mem _ false c (pyStrip_mem _ c hc) with h | ⟨_, h2⟩
    · intro _
      exact h
    · intro hsp
      rw [hsp] at h2
      cases h2
  · exact pyStrip_chain _ (collapse_chain _ false).1
  · exact pyStrip_head _
  · exact pyStrip_last _

/-- `normalizeL` is the identity on lists already in normal form. -/
theorem normalizeL_fix (l : List Char)
    (h1 : ∀ c ∈ l, pyLower c = c) (h2 : ∀ c ∈ l, isPunctChar c = false)
    (h3 : ∀ c ∈ l, pyIsSpace c = true → c = ' ') (h4 : SpacedOK l)
    (h5 : ∀ c, l.head? = some c → pyIsSpace c = false)
    (h6 : ∀ c, l.getLast? = some c → pyIsSpace c = false) :
    normalizeL l = l := by
  unfold normalizeL
  rw [mapFix l h1, pyStripFix l h5 h6, subPunctFix l h2, collapseFix l h3 h4,
    pyStripFix l h5 h6]

/-- C7: Normalization idempotence. -/
theorem C7_normalize_idempotent :
    (∀ s : String, LocationCache.normalize (LocationCache.normalize s) =
      LocationCache.normalize s) ∧
    LocationCache.normalize "SWAN HILL" = "swan hill" ∧
    LocationCache.normalize "FH* TIME SAFARIS" = "fh time safaris" ∧
    LocationCache.normalize "  swan   hill  " = "swan hill" := by
  refine ⟨?_, by decide, by decide, by decide⟩
  intro s
  have h : normalizeL (normalizeL s.data) = normalizeL s.data := by
    obtain ⟨f1, f2, f3, f4, f5, f6⟩ := normalizeL_NF s.data
    exact normalizeL_fix _ f1 f2 f3 f4 f5 f6
  exact congrArg String.mk h

/-! ### Concrete states for evaluated claims and witnesses -/

/-- A resolved Swan Hill record as the repository's `seeded_cache` test
fixture stores it, with a chosen hit count. -/
def swanData (hits : Nat) : CacheEntry :=
  { resolved := true, lat := some ((-35338 : Rat)/1000)
    lon := some ((14355 : Rat)/100), state := some "VIC"
    city := some "Swan Hill", type_ := some "regional"
    display_name := some "", source := some "location_db"
    confidence := some ((9 : Rat)/10)
    hit_count := hits, first_seen := 1, last_seen := 1 }

/-- The cache state of claim C1 (and of the repository test
`test_higher_hit_count_wins_fuzzy_tiebreak`): resolved entries
"swan hill" (hit_count 14), "swan hill racecourse" (1),
"swan hill racing" (1); no overrides; threshold 85. -/
def st1cl : LocationCache :=
  { fuzzy_threshold := 85
    cache := { total_entries := 3, total_lookups := 0, entries :=
      [("swan hill", swanData 14),
       ("swan hill racecourse", swanData 1),
       ("swan hill racing", swanData 1)] }
    overrides := { overrides := [] } }

set_option maxRecDepth 40000 in
unseal Rat.mul Rat.inv Rat.add Rat.sub Rat.ofScientific in
/-- C1: frequency-weighted tie-break at the claim's concrete state.  The
claim (and the repository's own test) says `lookup("SWAN HILL RACE")`
returns the hit-count-14 "swan hill" entry because all three candidates
score at least 85.  In fact "swan hill" scores 1800/23 ≈ 78.3 and
"swan hill racecourse" scores 1400/17 ≈ 82.4 — both below the threshold —
so "swan hill racing" (score 260/3 ≈ 86.7) is the only candidate and
`lookup` returns its entry (hit-bumped to 2), not the "swan hill" one. -/
theorem C1_swan_hill_race_divergence :
    (st1cl.lookup "SWAN HILL RACE" 99).1 =
      (some (.ent { swanData 1 with hit_count := 2, last_seen := 99 }), 260/3) ∧
    tokenSortScore (LocationCache.normalize "SWAN HILL RACE").data
      "swan hill".data < 85 ∧
    tokenSortScore (LocationCache.normalize "SWAN HILL RACE").data
      "swan hill racecourse".data < 85 ∧
    (85 : Rat) ≤ tokenSortScore (LocationCache.normalize "SWAN HILL RACE").data
      "swan hill racing".data := by
  decide

/-- An unresolved entry with the given first/last timestamp. -/
def unresEntry (fs : Nat) : CacheEntry :=
  { resolved := false, lat := none, lon := none, state := none, city := none
    type_ := none, display_name := none, source := none, confidence := none
    hit_count := 1, first_seen := fs, last_seen := fs }

/-- Fourteen letters `a` with a `b` at position `i`: ten distinct
unresolved keys each scoring 650/7 ≈ 92.9 against fourteen `a`s. -/
def crowdKey (i : Nat) : String :=
  ⟨(List.range 14).map (fun j => if j = i then 'b' else 'a')⟩

/-- The counterexample state for claim C5: ten unresolved keys that score
higher against the query than the one resolved key does. -/
def st5cl : LocationCache :=
  { fuzzy_threshold := 85
    cache := { total_entries := 11, total_lookups := 0, entries :=
      ((List.range 10).map (fun i => (crowdKey i, unresEntry i))) ++
      [("aaaaaaaaaaaab", swanData 5)] }
    overrides := { overrides := [] } }

set_option maxRecDepth 40000 in
unseal Rat.mul Rat.inv Rat.add Rat.sub Rat.ofScientific in
/-- C5 counterexample: unresolved entries are not excluded from the
candidate pool before scoring.  In `st5cl` the resolved key
"aaaaaaaaaaaab" scores 800/9 ≈ 88.9 ≥ 85 against the query, yet the ten
scored candidate slots are all occupied by unresolved keys (scoring 650/7
≈ 92.9), so the fuzzy search finds nothing and `lookup` returns
`(None, 0.0)` — under the claim the pool would contain only the resolved
key and `lookup` would return it. -/
theorem C5_counterexample :
    (st5cl.lookup "aaaaaaaaaaaaaa" 7).1 = (none, 0) ∧
    (85 : Rat) ≤ tokenSortScore "aaaaaaaaaaaaaa".data "aaaaaaaaaaaab".data ∧
    (alGet st5cl.cache.entries "aaaaaaaaaaaab").map CacheEntry.resolved =
      some true ∧
    (processExtract "aaaaaaaaaaaaaa" (alKeys st5cl.cache.entries) 10).map
      Scored.key = (List.range 10).map crowdKey ∧
    ∀ s ∈ (processExtract "aaaaaaaaaaaaaa" (alKeys st5cl.cache.entries)
        10).map Scored.key,
      (alGet st5cl.cache.entries s).map CacheEntry.resolved = some false := by
  decide

/-- A one-entry resolved cache used to witness the amended claim C5. -/
def st5w : LocationCache :=
  { fuzzy_threshold := 85
    cache := { total_entries := 1, total_lookups := 0
               entries := [("swan hill", swanData 3)] }
    overrides := { overrides := [] } }

/-- The state `st5w` after the fuzzy hit touched its entry. -/
def st5w2 : LocationCache :=
  { fuzzy_threshold := 85
    cache := { total_entries := 1, total_lookups := 0
               entries := [("swan hill",
                 { swanData 3 with hit_count := 4, last_seen := 7 })] }
    overrides := { overrides := [] } }

unseal Rat.mul Rat.inv Rat.add Rat.sub Rat.ofScientific in
theorem C5_witness :
    ({ swanData 3 with hit_count := 4, last_seen := 7 } : CacheEntry).resolved
      = true :=
  C5_fuzzy_cache_resolved_only st5w "swan hil" 7
    { swanData 3 with hit_count := 4, last_seen := 7 } ((1600 : Rat)/17) st5w2
    (by decide)

/-- Witness state for C3: "test place" present in both documents with
differing data (the repository test `test_override_wins_over_cache`). -/
def ovW : OverrideEntry :=
  { lat := some 1, lon := some 1, state := some "RIGHT"
    city := some "Right City", country := none, type_ := none
    display_name := none, reason := none }

def entW : CacheEntry :=
  { resolved := true, lat := some 0, lon := some 0, state := some "WRONG"
    city := some "Wrong City", type_ := none, display_name := none
    source := some "auto", confidence := some ((9 : Rat)/10)
    hit_count := 1, first_seen := 1, last_seen := 1 }

def st3w : LocationCache :=
  { fuzzy_threshold := 85
    cache := { total_entries := 1, total_lookups := 0
               entries := [("test place", entW)] }
    overrides := { overrides := [("test place", ovW)] } }

unseal Rat.mul Rat.inv Rat.add Rat.sub Rat.ofScientific in
theorem C2_witness :
    (((LocationCache.init .missing .missing 85).store_unresolvable
        "SKYLINE LUGE PHOTOS" 3).lookup "SKYLINE LUGE PHOTOS" 4).1 =
      (none, -1) :=
  C2_unresolvable_short_circuit (LocationCache.init .missing .missing 85)
    "SKYLINE LUGE PHOTOS" 3 4 (by decide) (by decide) (by decide)
    (Or.inl (by decide))

unseal Rat.mul Rat.inv Rat.add Rat.sub Rat.ofScientific in
theorem C3_witness :
    (st3w.lookup "Test Place" 9).1 = (some (.ovr ovW), 100) :=
  C3_override_supremacy st3w "Test Place" 9 ovW entW (by decide) (by decide)
    (by decide) (by decide) (by decide)

/-- Witness state for C4: a resolved "swan hill" entry with 14 hits. -/
def st4w : LocationCache :=
  { fuzzy_threshold := 85
    cache := { total_entries := 1, total_lookups := 0
               entries := [("swan hill", swanData 14)] }
    overrides := { overrides := [] } }

unseal Rat.mul Rat.inv Rat.add Rat.sub Rat.ofScientific in
theorem C4_witness :
    alGet (st4w.store_unresolvable "SWAN HILL" 5).cache.entries
      (LocationCache.normalize "SWAN HILL") =
      some { swanData 14 with hit_count := 15, last_seen := 5 } ∧
    ({ swanData 14 with hit_count := 15, last_seen := 5 } : CacheEntry).resolved
      = true :=
  ⟨(C4_resolved_never_downgraded.1 st4w "SWAN HILL" 5 (swanData 14)
      (by decide) (by decide) (by decide)).1,
   C4_resolved_never_downgraded.2 (.store_unresolvable "SWAN HILL" 5) st4w
     "swan hill" (swanData 14)
     { swanData 14 with hit_count := 15, last_seen := 5 }
     (by decide) (by decide) (by decide)⟩

/-- Witness data for C6 (the repository test
`test_store_increments_hit_count` stores "dubbo" repeatedly). -/
def d6 : StoreData :=
  { lat := some ((-3225 : Rat)/100), lon := some ((1486 : Rat)/10)
    state := some "NSW", city := none, type_ := none
    display_name := none, confidence := none }

def st6b : LocationCache :=
  (LocationCache.init .missing .missing 85).store "dubbo" d6 "location_db" 7

/-- The entry `st6b` holds at key "dubbo". -/
def e6 : CacheEntry :=
  { resolved := true, lat := d6.lat, lon := d6.lon, state := some "NSW"
    city := some "", type_ := some "", display_name := some ""
    source := some "location_db", confidence := some ((9 : Rat)/10)
    hit_count := 1, first_seen := 7, last_seen := 7 }

def e6b : CacheEntry := { e6 with hit_count := 2, last_seen := 8 }

unseal Rat.mul Rat.inv Rat.add Rat.sub Rat.ofScientific in
theorem C6_witness :
    (∃ e2, alGet st6b.cache.entries (LocationCache.normalize "dubbo") =
        some e2 ∧ e2.hit_count = 1 ∧ e2.first_seen = 7) ∧
    (∃ e2, alGet (st6b.store "dubbo" d6 "location_db" 8).cache.entries
        (LocationCache.normalize "dubbo") = some e2 ∧
      e2.hit_count = e6.hit_count + 1 ∧ e2.first_seen = e6.first_seen) ∧
    (e6.hit_count ≤ e6b.hit_count ∧ e6b.first_seen = e6.first_seen) :=
  ⟨C6_hit_count_monotonic.1 (LocationCache.init .missing .missing 85) "dubbo"
      d6 "location_db" 7 (by decide) (by decide),
   C6_hit_count_monotonic.2.1 st6b "dubbo" d6 "location_db" 8 e6 (by decide)
     (by decide),
   C6_hit_count_monotonic.2.2 (.store "dubbo" d6 "location_db" 8) st6b "dubbo"
     e6 e6b (by decide) (by decide)⟩

/-- Witness data for C8. -/
def d8 : StoreData :=
  { lat := some ((-35338 : Rat)/1000), lon := some ((14355 : Rat)/100)
    state := some "VIC", city := none, type_ := none
    display_name := none, confidence := none }

unseal Rat.mul Rat.inv Rat.add Rat.sub Rat.ofScientific in
theorem C8_witness :
    ∃ e : CacheEntry,
      ((LocationCache.init
          ((LocationCache.init .missing .missing 85).store "swan hill" d8
            "location_db" 1).save.1.1
          ((LocationCache.init .missing .missing 85).store "swan hill" d8
            "location_db" 1).save.1.2
          85).lookup "swan hill" 2).1 = (some (.ent e), 100) ∧
      e.resolved = true ∧ e.lat = d8.lat ∧ e.lon = d8.lon ∧
      e.state = some (d8.state.getD "") ∧ e.city = some (d8.city.getD "") ∧
      e.type_ = some (d8.type_.getD "") ∧
      e.display_name = some (d8.display_name.getD "") ∧
      e.confidence = some (d8.confidence.getD ((9 : Rat)/10)) :=
  C8_round_trip "swan hill" d8 "location_db" 1 2 85 (by decide)

/-- Witness state for C10: an unresolved "gibberish text 123" entry. -/
def st10w : LocationCache :=
  { fuzzy_threshold := 85
    cache := { total_entries := 1, total_lookups := 0
               entries := [("gibberish text 123", unresolvedFresh 2)] }
    overrides := { overrides := [] } }

unseal Rat.mul Rat.inv Rat.add Rat.sub Rat.ofScientific in
theorem C10_witness :
    (st10w.lookup "GIBBERISH TEXT 123" 6).1 = (none, -1) ∧
    alGet (st10w.lookup "GIBBERISH TEXT 123" 6).2.cache.entries
      (LocationCache.normalize "GIBBERISH TEXT 123") =
      some { unresolvedFresh 2 with hit_count := 2, last_seen := 6 } ∧
    (∀ k2, k2 ≠ LocationCache.normalize "GIBBERISH TEXT 123" →
      alGet (st10w.lookup "GIBBERISH TEXT 123" 6).2.cache.entries k2 =
        alGet st10w.cache.entries k2) ∧
    (st10w.lookup "GIBBERISH TEXT 123" 6).2.overrides = st10w.overrides :=
  C10_unresolved_exact_hit_touches st10w "GIBBERISH TEXT 123" 6
    (unresolvedFresh 2) (by decide) (by decide) (by decide) (by decide)
    (by decide)
